import Mathlib

/-!
A verification development for the StudyLion scheduling core: the session
lifecycle engine (bot/modules/study/tracking/session_tracker.py), the
periodic accrual scanner (bot/modules/study/tracking/time_tracker.py) and
the slot booking and cancellation engine
(bot/modules/accountability/commands.py).

Stateful Python code is shallowly embedded as pure functions over explicit
state records.  Dictionaries become association lists, asyncio tasks become
records carrying a status, timestamps are integers (seconds), and coin
amounts that Python computes with float division are rationals.
-/

set_option maxRecDepth 4000

/-- Association list lookup, modelling Python dict access. -/
def alookup {α β : Type} [DecidableEq α] (k : α) : List (α × β) → Option β
  | [] => none
  | (a, b) :: t => if a = k then some b else alookup k t

/-- Association list insert-or-replace, modelling Python dict assignment.
The new binding shadows and removes any previous binding of the key. -/
def ainsert {α β : Type} [DecidableEq α] (k : α) (v : β) (l : List (α × β)) :
    List (α × β) :=
  (k, v) :: l.filter (fun p => !decide (p.1 = k))

/-- Association list erase, modelling Python dict.pop with a default. -/
def aerase {α β : Type} [DecidableEq α] (k : α) (l : List (α × β)) :
    List (α × β) :=
  l.filter (fun p => !decide (p.1 = k))

/-! ## Session lifecycle engine (session_tracker.py) -/

/-- Status of a cooperatively scheduled asyncio task. -/
inductive TaskStatus
  | pending
  | cancelled
  | done
deriving DecidableEq

/-- A scheduled task: its status together with the delay it waits for. -/
structure TaskRec where
  status : TaskStatus
  delay : ℤ
deriving DecidableEq

/-- asyncio Task.cancel: only a still-pending task moves to cancelled;
cancelling a finished or already-cancelled task changes nothing. -/
def cancelTask (t : ℕ) (tasks : List (ℕ × TaskRec)) : List (ℕ × TaskRec) :=
  match alookup t tasks with
  | some r => if r.status = TaskStatus.pending
      then ainsert t { r with status := TaskStatus.cancelled } tasks
      else tasks
  | none => tasks

/-- SessionChannelType from study/tracking/data.py, as classified in
Session.start. -/
inductive SessionChannelType
  | rented
  | accountability
  | standard
deriving DecidableEq

/-- The fields of a discord VoiceState read by the tracker. -/
structure VoiceState where
  channelid : ℕ
  selfVideo : Bool
  selfStream : Bool
deriving DecidableEq

/-- The Lion member fields read by Session.start and the expiry logic. -/
structure LionInfo where
  remainingStudyToday : ℤ
  remainingInDay : ℤ
deriving DecidableEq

/-- A row of the current_sessions table, as created by Session.start. -/
structure SessionRow where
  guildid : ℕ
  userid : ℕ
  channelid : ℕ
  channelType : SessionChannelType
  startTime : ℤ
  liveStart : Option ℤ
  streamStart : Option ℤ
  videoStart : Option ℤ
  liveDuration : ℤ
  streamDuration : ℤ
  videoDuration : ℤ
  hourlyCoins : ℤ
  hourlyLiveCoins : ℤ
  closed : Bool
deriving DecidableEq

/-- The in-memory Session object.  Its one piece of mutable state beyond
the key is the `_expiry_task` slot.  In the source this slot is written in
exactly two places: `__init__` sets it to None, and `_schedule_expiry`
executes `self._expiry_task = await asyncio.sleep(...)`, which stores the
result of the completed sleep (None) rather than a task handle.  Hence the
slot never holds a task, which the embedding reflects by never storing a
task id in it. -/
structure SessionObj where
  guildid : ℕ
  userid : ℕ
  expiryTask : Option ℕ
deriving DecidableEq

/-- The process state owned by the session tracker: the active session
cache, the pending-start cache, the persisted session rows, the live task
table with a fresh-id counter, the Lion member data, and the row caches
used for channel classification. -/
structure TrackerState where
  sessions : List ((ℕ × ℕ) × SessionObj)
  membersPending : List ((ℕ × ℕ) × ℕ)
  currentSessions : List SessionRow
  tasks : List (ℕ × TaskRec)
  nextTask : ℕ
  lions : List ((ℕ × ℕ) × LionInfo)
  rentedCache : List ℕ
  accountabilityCache : List ℕ
deriving DecidableEq

/-- Lion.fetch for the fields the tracker reads. -/
def lionOf (st : TrackerState) (g u : ℕ) : LionInfo :=
  (alookup (g, u) st.lions).getD { remainingStudyToday := 0, remainingInDay := 0 }

/-- Modelled from the spec: `current_sessions.queries.close_study_session`
lives in the data layer, which is not among the sources.  The spec says
finish "persists closing accounting (delegated to storage)"; we model it
as marking the member's open session rows closed, which is idempotent. -/
def closeStudySession (rows : List SessionRow) (g u : ℕ) : List SessionRow :=
  rows.map (fun r =>
    if r.guildid = g ∧ r.userid = u then { r with closed := true } else r)

/-- The error raised by Session.start when a session already exists
(`ValueError`, named AlreadyActive by the spec). -/
inductive StartError
  | alreadyActive
deriving DecidableEq

/-- Session.start (classmethod), session_tracker.py lines 50-103.
Returns the new tracker state and an error when one is raised.

* If the member already has a cached session, raise AlreadyActive.
* If the member is study capped, pop and cancel any pending-start task,
  then register a fresh pending-start task waiting for the remaining time
  in the day, and return without creating a session row.
* Otherwise classify the channel, create the session row stamped with the
  reward-rate snapshot and flag-dependent sub-timer starts, add the member
  to the session cache, and spawn the expiry task.  The spawned expiry
  task id is not recorded in the SessionObj because `_schedule_expiry`
  never stores it (see SessionObj). -/
def sessionStart (st : TrackerState) (g u : ℕ) (vs : VoiceState) (now : ℤ)
    (hourlyCoins hourlyLiveCoins : ℤ) : TrackerState × Option StartError :=
  if (alookup (g, u) st.sessions).isSome then
    (st, some StartError.alreadyActive)
  else
    let lion := lionOf st g u
    if lion.remainingStudyToday ≤ 0 then
      let tasks0 :=
        match alookup (g, u) st.membersPending with
        | some t => cancelTask t st.tasks
        | none => st.tasks
      let tid := st.nextTask
      ({ st with
          tasks := ainsert tid { status := TaskStatus.pending, delay := lion.remainingInDay } tasks0,
          nextTask := tid + 1,
          membersPending := ainsert (g, u) tid st.membersPending }, none)
    else
      let channelType :=
        if vs.channelid ∈ st.rentedCache then SessionChannelType.rented
        else if vs.channelid ∈ st.accountabilityCache then SessionChannelType.accountability
        else SessionChannelType.standard
      let row : SessionRow :=
        { guildid := g
          userid := u
          channelid := vs.channelid
          channelType := channelType
          startTime := now
          liveStart := if vs.selfVideo || vs.selfStream then some now else none
          streamStart := if vs.selfStream then some now else none
          videoStart := if vs.selfVideo then some now else none
          liveDuration := 0
          streamDuration := 0
          videoDuration := 0
          hourlyCoins := hourlyCoins
          hourlyLiveCoins := hourlyLiveCoins
          closed := false }
      let tid := st.nextTask
      ({ st with
          currentSessions := st.currentSessions ++ [row],
          sessions := ainsert (g, u) { guildid := g, userid := u, expiryTask := none } st.sessions,
          tasks := ainsert tid { status := TaskStatus.pending, delay := lion.remainingStudyToday } st.tasks,
          nextTask := tid + 1 }, none)

/-- Session.finish, session_tracker.py lines 181-194: persist the closing
accounting, drop the member from the session cache, and cancel the task
referenced by the `_expiry_task` slot when it is still pending. -/
def sessionFinish (st : TrackerState) (s : SessionObj) : TrackerState :=
  let st1 := { st with
    currentSessions := closeStudySession st.currentSessions s.guildid s.userid,
    sessions := aerase (s.guildid, s.userid) st.sessions }
  match s.expiryTask with
  | some t => { st1 with tasks := cancelTask t st1.tasks }
  | none => st1

/-- Session.save_live_status, session_tracker.py lines 196-221.  A single
instant `now` is captured once; each of the three sub-timers folds its
elapsed time into its cumulative duration when it was running, then its
start field is set from its current flag, with combined = video or stream. -/
def saveLiveStatus (row : SessionRow) (hasVideo hasStream : Bool) (now : ℤ) :
    SessionRow :=
  let isLive := hasVideo || hasStream
  let d1 :=
    match row.videoStart with
    | some t => { row with videoDuration := row.videoDuration + (now - t) }
    | none => row
  let d2 := { d1 with videoStart := if hasVideo then some now else none }
  let d3 :=
    match d2.streamStart with
    | some t => { d2 with streamDuration := d2.streamDuration + (now - t) }
    | none => d2
  let d4 := { d3 with streamStart := if hasStream then some now else none }
  let d5 :=
    match d4.liveStart with
    | some t => { d4 with liveDuration := d4.liveDuration + (now - t) }
    | none => d4
  { d5 with liveStart := if isLive then some now else none }

/-! ## Periodic accrual scanner (time_tracker.py) -/

/-- The fields of a voice channel member read by `_scan`. -/
structure VoiceMember where
  userid : ℕ
  isBot : Bool
  selfStream : Bool
  selfVideo : Bool
deriving DecidableEq

/-- A guild voice channel with its current members. -/
structure VoiceChannel where
  channelid : ℕ
  members : List VoiceMember
deriving DecidableEq

/-- Everything `_scan` reads about a guild: its channels, the untracked
channel setting, the reward settings, and the two blacklists. -/
structure GuildScan where
  guildid : ℕ
  voiceChannels : List VoiceChannel
  untracked : List ℕ
  hourlyReward : ℚ
  hourlyLiveBonus : ℚ
  blacklist : List ℕ
  guildBlacklist : List ℕ
deriving DecidableEq

/-- One credit issued by a scan tick: `lion.addTime(interval, flush=False)`
together with `lion.addCoins(amount, flush=False, bonus=True)`.  Coins are
rational because Python computes the amount with float division. -/
structure Credit where
  userid : ℕ
  time : ℤ
  coins : ℚ
  flush : Bool
deriving DecidableEq

/-- `_scan`, time_tracker.py lines 17-68.  Returns the updated last-scan
map and the list of credits issued.

The try/except KeyError/finally structure means the last-scan timestamp is
always overwritten with `now`, also on the first tick (which issues no
credit) and on a discarded stale tick.  A tick whose interval exceeds
20 minutes is discarded.  Otherwise every member of a tracked voice
channel who is not a bot and not blacklisted is credited the interval and
`(hourly_reward + live bonus when streaming or on camera) * interval / 3600`
coins, both unflushed. -/
def scanGuild (g : GuildScan) (lastScan : List (ℕ × ℤ)) (now : ℤ) :
    List (ℕ × ℤ) × List Credit :=
  let newLast := ainsert g.guildid now lastScan
  match alookup g.guildid lastScan with
  | none => (newLast, [])
  | some last =>
    let interval := now - last
    if 60 * 20 < interval then (newLast, [])
    else
      let tracked := g.voiceChannels.filter (fun c => decide (c.channelid ∉ g.untracked))
      let members := tracked.flatMap VoiceChannel.members
      let credits := members.filterMap (fun m =>
        if m.isBot then none
        else if m.userid ∈ g.blacklist ∨ m.userid ∈ g.guildBlacklist then none
        else
          let hourReward :=
            g.hourlyReward + (if m.selfStream || m.selfVideo then g.hourlyLiveBonus else 0)
          some { userid := m.userid
                 time := interval
                 coins := hourReward * (interval : ℚ) / 3600
                 flush := false })
      (newLast, credits)

/-! ## Slot booking and cancellation (accountability/commands.py) -/

/-- A row of the accountability_rooms table (a Slot).  Channel and message
identities stay absent until the slot is activated. -/
structure SlotRow where
  slotid : ℕ
  guildid : ℕ
  startAt : ℤ
  channelid : Option ℕ
  messageid : Option ℕ
deriving DecidableEq

/-- A row of the accountability_members table (a Reservation), with the
columns named by the insert in the book branch: slotid, userid, paid. -/
structure ResRow where
  slotid : ℕ
  userid : ℕ
  paid : ℤ
deriving DecidableEq

/-- User-facing failures of the booking and cancel branches. -/
inductive BookError
  | invalidSelection
  | slotRunning
  | insufficientFunds
deriving DecidableEq

/-- A SlotMember entry of a live TimeSlot member map. -/
structure SlotMemberRec where
  slotid : ℕ
  userid : ℕ
  guildid : ℕ
deriving DecidableEq

/-- Modelled from the spec: the TimeSlot class lives in
accountability/TimeSlot.py, which is not among the sources; commands.py
reads and mutates these fields of `aguild.upcoming_slot`.  `dataSlotid` is
the slotid of `slot.data` when the backing row has been attached,
`channelid` the live channel when the slot has opened, and `members` the
live member map. -/
structure UpcomingSlot where
  startTime : ℤ
  dataSlotid : Option ℕ
  channelid : Option ℕ
  members : List (ℕ × SlotMemberRec)
deriving DecidableEq

/-- An AccountabilityGuild cache entry, as read by commands.py. -/
structure AGuildRec where
  guildid : ℕ
  upcoming : Option UpcomingSlot
deriving DecidableEq

/-- The state touched by the booking and cancel branches: the slot and
reservation tables, the acting member coin balance, the serial slotid
counter of the row store, and the AccountabilityGuild cache. -/
structure BookState where
  rooms : List SlotRow
  reservations : List ResRow
  coins : ℤ
  nextSlotid : ℕ
  aguilds : List (ℕ × AGuildRec)
deriving DecidableEq

/-- accountability_rooms.insert_many of the missing start times: serial
slotids are assigned from the given counter, channel and message absent. -/
def makeSlotRows (g : ℕ) : ℕ → List ℤ → List SlotRow
  | _, [] => []
  | sid, t :: ts =>
    { slotid := sid, guildid := g, startAt := t, channelid := none, messageid := none }
      :: makeSlotRows g (sid + 1) ts

/-- The already-opened-slot block of the book branch, commands.py lines
334-355.  When the guild cache holds an upcoming slot whose start time was
just booked: if the slot has no data row attached yet, refresh it against
the rooms table, open the live room (channel and message identities are
supplied by the caller since they come from discord) and persist them on
the row; otherwise add the booking member to the live member map.  Only
the rooms table and the guild cache are touched. -/
def bookActivation (st : BookState) (guildid userid : ℕ) (toBook : List ℤ)
    (openChannelid openMessageid : ℕ) : BookState :=
  match alookup guildid st.aguilds with
  | none => st
  | some ag =>
    match ag.upcoming with
    | none => st
    | some slot =>
      if slot.startTime ∈ toBook then
        match slot.dataSlotid with
        | none =>
          match (st.rooms.filter
              (fun r => decide (r.guildid = guildid ∧ r.startAt = slot.startTime))).head? with
          | some row =>
            let slot1 := { slot with dataSlotid := some row.slotid, channelid := some openChannelid }
            { st with
                rooms := st.rooms.map (fun r =>
                  if r.slotid = row.slotid then
                    { r with channelid := some openChannelid, messageid := some openMessageid }
                  else r),
                aguilds := ainsert guildid { ag with upcoming := some slot1 } st.aguilds }
          | none => st
        | some sid =>
          let mem : SlotMemberRec := { slotid := sid, userid := userid, guildid := guildid }
          let slot1 := { slot with members := ainsert userid mem slot.members }
          { st with
              aguilds := ainsert guildid { ag with upcoming := some slot1 } st.aguilds }
      else st

/-- The slot rows already backing the requested times:
`accountability_rooms.fetch_rows_where(guildid=..., start_at=to_book)`. -/
def bookSlotRows (st : BookState) (guildid : ℕ) (toBook : List ℤ) : List SlotRow :=
  st.rooms.filter (fun r => decide (r.guildid = guildid ∧ r.startAt ∈ toBook))

/-- The requested times with no backing row yet:
`set(to_book).difference(row.start_at for row in slot_rows)`. -/
def bookToAdd (st : BookState) (guildid : ℕ) (toBook : List ℤ) : List ℤ :=
  toBook.dedup.filter
    (fun t => !decide (t ∈ (bookSlotRows st guildid toBook).map SlotRow.startAt))

/-- The slot rows created for the missing times by
`accountability_rooms.insert_many`. -/
def bookNewRows (st : BookState) (guildid : ℕ) (toBook : List ℤ) : List SlotRow :=
  makeSlotRows guildid st.nextSlotid (bookToAdd st guildid toBook)

/-- The slotids the member is booked into: the existing rows followed by
the freshly inserted ones. -/
def bookSlotids (st : BookState) (guildid : ℕ) (toBook : List ℤ) : List ℕ :=
  (bookSlotRows st guildid toBook).map SlotRow.slotid
    ++ (bookNewRows st guildid toBook).map SlotRow.slotid

/-- The state after the row work of a successful booking: the missing slot
rows are inserted, one reservation row per slotid is batch-inserted at the
current price, and the already-open upcoming slot is handled.  The balance
is not yet debited here. -/
def bookSuccess (st : BookState) (guildid userid : ℕ) (price : ℤ)
    (toBook : List ℤ) (openChannelid openMessageid : ℕ) : BookState :=
  bookActivation
    { st with
        rooms := st.rooms ++ bookNewRows st guildid toBook,
        reservations := st.reservations
          ++ (bookSlotids st guildid toBook).map
              (fun sid => ({ slotid := sid, userid := userid, paid := price } : ResRow)),
        nextSlotid := st.nextSlotid + (bookToAdd st guildid toBook).length }
    guildid userid toBook openChannelid openMessageid

/-- The book branch after the selection reply has been parsed, commands.py
lines 299-356.

* empty selection: InvalidSelection, no effect;
* a selected time already in the past: rejected, no effect;
* total cost above the member balance: InsufficientFunds, no effect;
* otherwise the backing slot rows are fetched, the missing ones are
  batch-inserted with serial ids, one reservation row per slotid is
  batch-inserted at the current price, the already-open upcoming slot is
  handled, and only then is the balance debited by the total cost. -/
def bookBranch (st : BookState) (guildid userid : ℕ) (price : ℤ)
    (toBook : List ℤ) (now : ℤ) (openChannelid openMessageid : ℕ) :
    BookState × Option BookError :=
  if toBook.isEmpty then (st, some BookError.invalidSelection)
  else if toBook.any (fun t => decide (t < now)) then (st, some BookError.slotRunning)
  else
    let cost := (toBook.length : ℤ) * price
    if st.coins < cost then (st, some BookError.insufficientFunds)
    else
      let st2 := bookSuccess st guildid userid price toBook openChannelid openMessageid
      ({ st2 with coins := st2.coins - cost }, none)

/-- A row of the accountability_member_info view as used by the cancel
branch: the member booking joined with its slot. -/
structure JoinedRow where
  slotid : ℕ
  guildid : ℕ
  startAt : ℤ
deriving DecidableEq

/-- Whether a cancelled row hits the cached upcoming slot of its guild:
the guild is cached, an upcoming slot with an attached data row exists,
and that row is among the cancelled slotids (commands.py lines 173-176). -/
def slotMatches (st : BookState) (slotids : List ℕ) (row : JoinedRow) : Bool :=
  match alookup row.guildid st.aguilds with
  | some ag =>
    match ag.upcoming with
    | some slot =>
      match slot.dataSlotid with
      | some sid => decide (sid ∈ slotids)
      | none => false
    | none => false
  | none => false

/-- The already-opened-slot loop of the cancel branch, commands.py lines
173-187: the first cancelled row whose guild has a cached upcoming slot
with an attached data row among the cancelled slotids has the cancelling
member popped from the live member map, then the loop breaks.  Only the
guild cache is touched. -/
def cancelAGuildUpdate (st : BookState) (userid : ℕ) (slotids : List ℕ)
    (toCancel : List JoinedRow) : BookState :=
  match toCancel.find? (slotMatches st slotids) with
  | none => st
  | some row =>
    match alookup row.guildid st.aguilds with
    | none => st
    | some ag =>
      match ag.upcoming with
      | none => st
      | some slot =>
        let slot1 := { slot with members := aerase userid slot.members }
        { st with
            aguilds := ainsert row.guildid { ag with upcoming := some slot1 } st.aguilds }

/-- The cancel branch after the selection reply has been parsed,
commands.py lines 155-189.

* empty selection: InvalidSelection, no effect;
* a selected slot whose start time is already past: SlotRunning, no
  effect;
* otherwise the member reservation rows of the selected slotids are
  deleted, the cached upcoming slot is updated, and the member is
  refunded the sum of the paid amounts read back from the deleted rows. -/
def cancelBranch (st : BookState) (userid : ℕ) (toCancel : List JoinedRow)
    (now : ℤ) : BookState × Option BookError :=
  if toCancel.isEmpty then (st, some BookError.invalidSelection)
  else if toCancel.any (fun r => decide (r.startAt < now)) then
    (st, some BookError.slotRunning)
  else
    let slotids := toCancel.map JoinedRow.slotid
    let deleted := st.reservations.filter
      (fun r => decide (r.userid = userid ∧ r.slotid ∈ slotids))
    let remaining := st.reservations.filter
      (fun r => !decide (r.userid = userid ∧ r.slotid ∈ slotids))
    let st1 := { st with reservations := remaining }
    let st2 := cancelAGuildUpdate st1 userid slotids toCancel
    let refund := (deleted.map ResRow.paid).sum
    ({ st2 with coins := st2.coins + refund }, none)

/-! ## Exclusive interaction guard (commands.py ensure_exclusive) -/

/-- The fields of a command context read by ensure_exclusive: the author,
the id of the triggering message, and the pending wait tasks of the flow. -/
structure FlowCtx where
  authorId : ℕ
  msgId : ℕ
  tasks : List ℕ
deriving DecidableEq

/-- The guard state: the user_locks map plus the status of wait tasks. -/
structure GuardState where
  userLocks : List (ℕ × FlowCtx)
  taskStatus : List (ℕ × TaskStatus)
deriving DecidableEq

/-- asyncio task cancellation on the plain status map: pending moves to
cancelled, anything else is untouched. -/
def cancelStatus (t : ℕ) (m : List (ℕ × TaskStatus)) : List (ℕ × TaskStatus) :=
  match alookup t m with
  | some TaskStatus.pending => ainsert t TaskStatus.cancelled m
  | _ => m

/-- `[task.cancel() for task in old_ctx.tasks]`. -/
def cancelTasks (ts : List ℕ) (m : List (ℕ × TaskStatus)) :
    List (ℕ × TaskStatus) :=
  ts.foldl (fun acc t => cancelStatus t acc) m

/-- Entry of ensure_exclusive, commands.py lines 51-55: pop any previous
context of the author, cancel all of its tasks, then register the new
context as the author entry. -/
def ensureExclusiveEnter (st : GuardState) (ctx : FlowCtx) : GuardState :=
  match alookup ctx.authorId st.userLocks with
  | some oldCtx =>
    { userLocks := ainsert ctx.authorId ctx st.userLocks,
      taskStatus := cancelTasks oldCtx.tasks st.taskStatus }
  | none => { st with userLocks := ainsert ctx.authorId ctx st.userLocks }

/-- Exit of ensure_exclusive, commands.py lines 58-61: remove the author
entry only when it still refers to the completing flow, identified by the
id of its triggering message. -/
def ensureExclusiveExit (st : GuardState) (ctx : FlowCtx) : GuardState :=
  match alookup ctx.authorId st.userLocks with
  | some cur =>
    if cur.msgId = ctx.msgId then
      { st with userLocks := aerase ctx.authorId st.userLocks }
    else st
  | none => st

/-! ## Streak calculation loop (commands.py lines 440-489) -/

/-- One attendance-history row as read by the streak loop. -/
structure HistRow where
  startAt : ℤ
  attended : Bool
deriving DecidableEq

/-- The loop variables of the streak calculation. -/
structure StreakState where
  i : ℕ
  date : ℤ
  streak : ℕ
  currentStreak : Option ℕ
  maxStreak : ℕ
  dayAttended : Option Bool
deriving DecidableEq

/-- `datetime.timedelta(days=1)` in seconds. -/
def daydiff : ℤ := 86400

/-- The shared tail of the loop body: record the streak into the maximum
and the first-computed current streak, then reset it. -/
def streakReset (s : StreakState) : StreakState :=
  { s with
      maxStreak := max s.maxStreak s.streak,
      currentStreak := match s.currentStreak with
        | none => some s.streak
        | some c => some c,
      streak := 0 }

/-- One iteration of the streak loop on the row at the current index,
commands.py lines 448-482.  The Python body increments `i` on entry and
branches that re-try the same row decrement it again, which nets to the
index updates below. -/
def streakBody (row : HistRow) (s : StreakState) : StreakState :=
  if row.attended = false then
    streakReset { s with i := s.i + 1 }
  else if s.date < row.startAt then
    { s with i := s.i + 1, dayAttended := some true }
  else
    match s.dayAttended with
    | none => { s with date := s.date - daydiff, dayAttended := some false }
    | some false => streakReset { s with date := s.date - daydiff }
    | some true =>
      { s with streak := s.streak + 1, date := s.date - daydiff, dayAttended := some false }

/-- The while loop `while i < len(history)` run with explicit fuel; `none`
means the fuel ran out before the loop exited. -/
def streakRunFuel (history : List HistRow) : ℕ → StreakState → Option StreakState
  | 0, s => if s.i < history.length then none else some s
  | n + 1, s =>
    match history.get? s.i with
    | some row => streakRunFuel history n (streakBody row s)
    | none => some s

/-- The loop-exit tally, commands.py lines 484-489: a trailing attended
day extends the streak, then the maximum and current streaks are settled. -/
def streakFinal (s : StreakState) : ℕ × ℕ :=
  let streak := if s.dayAttended = some true then s.streak + 1 else s.streak
  let maxS := max s.maxStreak streak
  let cur :=
    match s.currentStreak with
    | none => streak
    | some c => c
  (cur, maxS)

/-- The start time of the row at the current loop index, used as a
termination measure component. -/
def curStart (history : List HistRow) (i : ℕ) : ℤ :=
  match history.get? i with
  | some r => r.startAt
  | none => 0

/-! ## Room-lock coverage of the booking and cancel branches (C1) -/

/-- The externally visible steps of the booking and cancel flows that
touch slot state, in source order. -/
inductive RoomAction
  | deleteReservations
  | popSlotMember
  | revokePermissions
  | updateSlotStatus
  | refundCoins
  | fetchSlotRows
  | insertSlotRows
  | insertReservations
  | refreshSlot
  | openSlot
  | persistOpenIdentities
  | setSlotMember
  | grantPermissions
  | debitCoins
deriving DecidableEq

/-- A step annotated with whether it executes inside `async with
room_lock`. -/
structure RoomStep where
  action : RoomAction
  underRoomLock : Bool
deriving DecidableEq

/-- The effectful steps of the cancel branch, commands.py lines 164-189:
the reservation deletion and the upcoming-slot member-map and permission
updates run inside `async with room_lock`; the refund runs after the
lock is released. -/
def cancelBranchSteps : List RoomStep :=
  [⟨RoomAction.deleteReservations, true⟩,
   ⟨RoomAction.popSlotMember, true⟩,
   ⟨RoomAction.revokePermissions, true⟩,
   ⟨RoomAction.updateSlotStatus, true⟩,
   ⟨RoomAction.refundCoins, false⟩]

/-- The effectful steps of the book branch, commands.py lines 317-356:
the slot lookup-or-create, the reservation insert, the slot activation
(`slot._refresh()`, `slot.open()`, persisting the channel and message
identities) and the live member-map and permission updates all run with
no `room_lock` acquisition anywhere in the branch. -/
def bookBranchSteps : List RoomStep :=
  [⟨RoomAction.fetchSlotRows, false⟩,
   ⟨RoomAction.insertSlotRows, false⟩,
   ⟨RoomAction.insertReservations, false⟩,
   ⟨RoomAction.refreshSlot, false⟩,
   ⟨RoomAction.openSlot, false⟩,
   ⟨RoomAction.persistOpenIdentities, false⟩,
   ⟨RoomAction.setSlotMember, false⟩,
   ⟨RoomAction.grantPermissions, false⟩,
   ⟨RoomAction.updateSlotStatus, false⟩,
   ⟨RoomAction.debitCoins, false⟩]

/-- The steps the claim requires to run under the room-scope guard: slot
lookup-or-create, live-room member-set mutation, and slot-row mutation
for activation. -/
def isActivationStep : RoomAction → Bool
  | RoomAction.fetchSlotRows => true
  | RoomAction.insertSlotRows => true
  | RoomAction.refreshSlot => true
  | RoomAction.openSlot => true
  | RoomAction.persistOpenIdentities => true
  | RoomAction.setSlotMember => true
  | RoomAction.popSlotMember => true
  | _ => false

/-! ## Concrete states used by witnesses and counterexamples -/

/-- A member with one hour of study budget left. -/
def exLion : LionInfo := { remainingStudyToday := 3600, remainingInDay := 7200 }

/-- A member whose daily cap is exhausted. -/
def exLionCapped : LionInfo := { remainingStudyToday := 0, remainingInDay := 7200 }

/-- An active session object for member 2 of guild 1. -/
def exSessObj : SessionObj := { guildid := 1, userid := 2, expiryTask := none }

/-- A tracker state where member 2 of guild 1 already has a session. -/
def exTrackerBusy : TrackerState :=
  { sessions := [((1, 2), exSessObj)]
    membersPending := []
    currentSessions := []
    tasks := []
    nextTask := 5
    lions := [((1, 2), exLion)]
    rentedCache := []
    accountabilityCache := [] }

/-- A tracker state where capped member 2 of guild 1 already has a
pending-start task (id 0) registered. -/
def exTrackerCapped : TrackerState :=
  { sessions := []
    membersPending := [((1, 2), 0)]
    currentSessions := []
    tasks := [(0, { status := TaskStatus.pending, delay := 500 })]
    nextTask := 1
    lions := [((1, 2), exLionCapped)]
    rentedCache := []
    accountabilityCache := [] }

/-- A fresh tracker state with no session for member 2 of guild 1. -/
def exTrackerFresh : TrackerState :=
  { sessions := []
    membersPending := []
    currentSessions := []
    tasks := []
    nextTask := 0
    lions := [((1, 2), exLion)]
    rentedCache := []
    accountabilityCache := [] }

/-- An eligible, non-live member present in a voice channel. -/
def exScanMember : VoiceMember :=
  { userid := 42, isBot := false, selfStream := false, selfVideo := false }

/-- The tracked voice channel holding that member. -/
def exScanChannel : VoiceChannel := { channelid := 10, members := [exScanMember] }

/-- A guild with hourly reward 6, live bonus 2 and no exclusions. -/
def exScanGuild : GuildScan :=
  { guildid := 1
    voiceChannels := [exScanChannel]
    untracked := []
    hourlyReward := 6
    hourlyLiveBonus := 2
    blacklist := []
    guildBlacklist := [] }

/-- A booking state: empty tables, member balance 20 coins. -/
def exBook : BookState :=
  { rooms := [], reservations := [], coins := 20, nextSlotid := 0, aguilds := [] }

/-- A state where member 5 holds three reservations paid at historical
prices 10, 15 and 7. -/
def exCancel : BookState :=
  { rooms :=
      [ { slotid := 1, guildid := 1, startAt := 3600, channelid := none, messageid := none }
      , { slotid := 2, guildid := 1, startAt := 7200, channelid := none, messageid := none }
      , { slotid := 3, guildid := 1, startAt := 10800, channelid := none, messageid := none } ]
    reservations :=
      [ { slotid := 1, userid := 5, paid := 10 }
      , { slotid := 2, userid := 5, paid := 15 }
      , { slotid := 3, userid := 5, paid := 7 } ]
    coins := 0
    nextSlotid := 4
    aguilds := [] }

/-- The two cancelled bookings of member 5 (slots 1 and 2). -/
def exToCancel : List JoinedRow :=
  [ { slotid := 1, guildid := 1, startAt := 3600 }
  , { slotid := 2, guildid := 1, startAt := 7200 } ]

/-- An older interactive flow of user 9 with one pending wait task. -/
def exOldCtx : FlowCtx := { authorId := 9, msgId := 100, tasks := [4] }

/-- A newer interactive flow of the same user. -/
def exNewCtx : FlowCtx := { authorId := 9, msgId := 200, tasks := [6] }

/-- A guard state in which the older flow is registered and waiting. -/
def exGuard : GuardState :=
  { userLocks := [(9, exOldCtx)]
    taskStatus := [(4, TaskStatus.pending)] }

/-! ## Helper lemmas -/

theorem alookup_cons {α β : Type} [DecidableEq α] (k a : α) (b : β)
    (t : List (α × β)) :
    alookup k ((a, b) :: t) = if a = k then some b else alookup k t := rfl

theorem alookup_ainsert {α β : Type} [DecidableEq α] (k : α) (v : β)
    (l : List (α × β)) : alookup k (ainsert k v l) = some v := by
  simp [ainsert, alookup_cons]

theorem alookup_filter_ne {α β : Type} [DecidableEq α] (k k0 : α)
    (l : List (α × β)) (h : k ≠ k0) :
    alookup k (l.filter (fun p => !decide (p.1 = k0))) = alookup k l := by
  induction l with
  | nil => rfl
  | cons a t ih =>
    obtain ⟨a1, a2⟩ := a
    by_cases ha : a1 = k0
    · have hak : a1 ≠ k := fun hk => h (hk.symm.trans ha)
      have h0 : k0 ≠ k := fun hk => h hk.symm
      simp [List.filter_cons, ha, alookup_cons, hak, h0, ih]
    · by_cases hak : a1 = k
      · simp [List.filter_cons, ha, alookup_cons, hak, h]
      · simp [List.filter_cons, ha, alookup_cons, hak, h, ih]

theorem alookup_ainsert_ne {α β : Type} [DecidableEq α] (k k0 : α) (v : β)
    (l : List (α × β)) (h : k ≠ k0) :
    alookup k (ainsert k0 v l) = alookup k l := by
  have h0 : k0 ≠ k := fun hk => h hk.symm
  rw [ainsert, alookup_cons, if_neg h0]
  exact alookup_filter_ne k k0 l h

theorem alookup_aerase_self {α β : Type} [DecidableEq α] (k : α)
    (l : List (α × β)) : alookup k (aerase k l) = none := by
  induction l with
  | nil => rfl
  | cons a t ih =>
    obtain ⟨a1, a2⟩ := a
    by_cases ha : a1 = k
    · simpa [aerase, List.filter_cons, ha] using ih
    · simpa [aerase, List.filter_cons, ha, alookup_cons] using ih

theorem filter_ne_filter_eq_nil {α β : Type} [DecidableEq α] (k : α)
    (l : List (α × β)) :
    (l.filter (fun p => !decide (p.1 = k))).filter (fun p => decide (p.1 = k)) = [] := by
  induction l with
  | nil => rfl
  | cons a t ih =>
    by_cases ha : a.1 = k
    · simp [List.filter_cons, ha, ih]
    · simp [List.filter_cons, ha, ih]

theorem ainsert_key_count_one {α β : Type} [DecidableEq α] (k : α) (v : β)
    (l : List (α × β)) :
    ((ainsert k v l).filter (fun p => decide (p.1 = k))).length = 1 := by
  simp [ainsert, List.filter_cons, filter_ne_filter_eq_nil]

/-! ## Claim theorems -/

/-- Claim C1 (code evaluation): the book branch of cmd_rooms performs the
slot lookup-or-create and the whole activation sequence (refresh, open,
persisting the room and message identities, live member-map mutation)
without holding room_lock, while the cancel branch does hold it; so not
every multi-step activation sequence executes under the room-scope
mutual-exclusion guard. -/
theorem book_branch_activation_unlocked :
    (⟨RoomAction.openSlot, false⟩ : RoomStep) ∈ bookBranchSteps ∧
    bookBranchSteps.all (fun s => !isActivationStep s.action || s.underRoomLock) = false ∧
    cancelBranchSteps.all (fun s => !isActivationStep s.action || s.underRoomLock) = true := by
  decide

/-- Claim C2: calling Session.start while an active session already exists
for the member fails with AlreadyActive and leaves the whole tracker state
(hence the existing session) unchanged. -/
theorem session_start_already_active (st : TrackerState) (g u : ℕ)
    (vs : VoiceState) (now hc hl : ℤ) (s : SessionObj)
    (h : alookup (g, u) st.sessions = some s) :
    sessionStart st g u vs now hc hl = (st, some StartError.alreadyActive) := by
  simp [sessionStart, h]

theorem session_start_already_active_witness :
    alookup (1, 2) exTrackerBusy.sessions = some exSessObj ∧
    sessionStart exTrackerBusy 1 2 ⟨7, false, false⟩ 0 10 5
      = (exTrackerBusy, some StartError.alreadyActive) :=
  ⟨by decide,
   session_start_already_active exTrackerBusy 1 2 ⟨7, false, false⟩ 0 10 5 exSessObj (by decide)⟩

/-- Claim C5 (code evaluation): starting a session schedules an expiry
task (id 0, waiting for the 3600 second budget) which is never recorded in
the session object, because `_schedule_expiry` assigns
`self._expiry_task = await asyncio.sleep(...)` — the result of the
completed sleep — instead of the task handle.  Finishing the session
closes the row and removes the cache entry, but the pending expiry task
stays pending: finish does not cancel it. -/
theorem session_finish_leaves_expiry_pending :
    (sessionStart exTrackerFresh 1 2 ⟨7, false, false⟩ 0 10 5).2 = none ∧
    (let st1 := (sessionStart exTrackerFresh 1 2 ⟨7, false, false⟩ 0 10 5).1
     let s := (alookup (1, 2) st1.sessions).getD ⟨1, 2, none⟩
     let st2 := sessionFinish st1 s
     alookup (1, 2) st2.sessions = none ∧
     (∀ r ∈ st2.currentSessions, r.closed = true) ∧
     alookup 0 st2.tasks = some { status := TaskStatus.pending, delay := 3600 }) := by
  decide

/-- Claim C6: Session.start for a study-capped member creates no session
row and no session-cache entry; it cancels the previous pending-start task
(really cancels it, not merely drops the reference), registers exactly one
new pending-start task for the member waiting for the remaining time in
the day, and returns without error. -/
theorem session_start_capped_pending (st : TrackerState) (g u : ℕ)
    (vs : VoiceState) (now hc hl : ℤ) (lion : LionInfo) (oldT : ℕ) (oldRec : TaskRec)
    (hno : alookup (g, u) st.sessions = none)
    (hlion : alookup (g, u) st.lions = some lion)
    (hcap : lion.remainingStudyToday ≤ 0)
    (hold : alookup (g, u) st.membersPending = some oldT)
    (holdRec : alookup oldT st.tasks = some oldRec)
    (holdPend : oldRec.status = TaskStatus.pending)
    (hfresh : oldT ≠ st.nextTask) :
    (sessionStart st g u vs now hc hl).2 = none ∧
    (sessionStart st g u vs now hc hl).1.sessions = st.sessions ∧
    (sessionStart st g u vs now hc hl).1.currentSessions = st.currentSessions ∧
    alookup (g, u) (sessionStart st g u vs now hc hl).1.membersPending = some st.nextTask ∧
    (((sessionStart st g u vs now hc hl).1.membersPending.filter
        (fun p => decide (p.1 = (g, u)))).length = 1) ∧
    alookup st.nextTask (sessionStart st g u vs now hc hl).1.tasks
      = some { status := TaskStatus.pending, delay := lion.remainingInDay } ∧
    alookup oldT (sessionStart st g u vs now hc hl).1.tasks
      = some { oldRec with status := TaskStatus.cancelled } := by
  have hlionOf : lionOf st g u = lion := by simp [lionOf, hlion]
  have hred : sessionStart st g u vs now hc hl = ({ st with
      tasks := ainsert st.nextTask
        { status := TaskStatus.pending, delay := lion.remainingInDay }
        (cancelTask oldT st.tasks),
      nextTask := st.nextTask + 1,
      membersPending := ainsert (g, u) st.nextTask st.membersPending }, none) := by
    simp [sessionStart, hno, hlionOf, hcap, hold]
  rw [hred]
  refine ⟨rfl, rfl, rfl, alookup_ainsert _ _ _, ainsert_key_count_one _ _ _,
    alookup_ainsert _ _ _, ?_⟩
  rw [alookup_ainsert_ne _ _ _ _ hfresh]
  simp [cancelTask, holdRec, holdPend, alookup_ainsert]

theorem session_start_capped_pending_witness :
    alookup (1, 2) (sessionStart exTrackerCapped 1 2 ⟨7, false, false⟩ 0 10 5).1.membersPending
      = some 1 ∧
    alookup 1 (sessionStart exTrackerCapped 1 2 ⟨7, false, false⟩ 0 10 5).1.tasks
      = some { status := TaskStatus.pending, delay := 7200 } ∧
    alookup 0 (sessionStart exTrackerCapped 1 2 ⟨7, false, false⟩ 0 10 5).1.tasks
      = some { status := TaskStatus.cancelled, delay := 500 } := by
  have h := session_start_capped_pending exTrackerCapped 1 2 ⟨7, false, false⟩ 0 10 5
    exLionCapped 0 { status := TaskStatus.pending, delay := 500 }
    (by decide) (by decide) (by decide) (by decide) (by decide) (by decide) (by decide)
  exact ⟨h.2.2.2.1, h.2.2.2.2.2.1, h.2.2.2.2.2.2⟩

/-- Claim C7: save_live_status uses one single instant `now` for all three
sub-timers: each sub-timer that was running has exactly its elapsed time up
to `now` folded into its cumulative duration (a timer that ran for D
records exactly D), and each start field is set to `now` exactly when its
flag is now true, with the combined flag being video or stream. -/
theorem save_live_status_single_instant (row : SessionRow) (hv hs : Bool) (now : ℤ) :
    (saveLiveStatus row hv hs now).videoDuration
      = row.videoDuration + (match row.videoStart with | some t => now - t | none => 0) ∧
    (saveLiveStatus row hv hs now).streamDuration
      = row.streamDuration + (match row.streamStart with | some t => now - t | none => 0) ∧
    (saveLiveStatus row hv hs now).liveDuration
      = row.liveDuration + (match row.liveStart with | some t => now - t | none => 0) ∧
    (saveLiveStatus row hv hs now).videoStart = (if hv then some now else none) ∧
    (saveLiveStatus row hv hs now).streamStart = (if hs then some now else none) ∧
    (saveLiveStatus row hv hs now).liveStart = (if hv || hs then some now else none) := by
  unfold saveLiveStatus
  rcases hvs : row.videoStart with _ | tv <;>
    rcases hss : row.streamStart with _ | ts <;>
      rcases hls : row.liveStart with _ | tl <;>
        simp [hvs, hss, hls]

theorem cancelStatus_cancelled_preserved (t t0 : ℕ) (m : List (ℕ × TaskStatus))
    (h : alookup t m = some TaskStatus.cancelled) :
    alookup t (cancelStatus t0 m) = some TaskStatus.cancelled := by
  by_cases ht : t0 = t
  · subst ht
    unfold cancelStatus
    rw [h]
    exact h
  · unfold cancelStatus
    rcases h0 : alookup t0 m with _ | s
    · exact h
    · cases s with
      | pending => rw [alookup_ainsert_ne _ _ _ _ (fun hk => ht hk.symm)]; exact h
      | cancelled => exact h
      | done => exact h

theorem cancelTasks_cancelled_preserved (ts : List ℕ) (t : ℕ)
    (m : List (ℕ × TaskStatus)) (h : alookup t m = some TaskStatus.cancelled) :
    alookup t (cancelTasks ts m) = some TaskStatus.cancelled := by
  induction ts generalizing m with
  | nil => exact h
  | cons t0 rest ih =>
    exact ih (cancelStatus t0 m) (cancelStatus_cancelled_preserved t t0 m h)

theorem cancelTasks_cancels (ts : List ℕ) (t : ℕ) (m : List (ℕ × TaskStatus))
    (hmem : t ∈ ts) (h : alookup t m = some TaskStatus.pending) :
    alookup t (cancelTasks ts m) = some TaskStatus.cancelled := by
  induction ts generalizing m with
  | nil => cases hmem
  | cons t0 rest ih =>
    by_cases ht : t0 = t
    · subst ht
      have hstep : alookup t0 (cancelStatus t0 m) = some TaskStatus.cancelled := by
        unfold cancelStatus
        rw [h]
        exact alookup_ainsert _ _ _
      exact cancelTasks_cancelled_preserved rest t0 _ hstep
    · have hmem' : t ∈ rest := by
        cases hmem with
        | head => exact absurd rfl ht
        | tail _ hr => exact hr
      have hstep : alookup t (cancelStatus t0 m) = some TaskStatus.pending := by
        unfold cancelStatus
        rcases h0 : alookup t0 m with _ | s
        · exact h
        · cases s with
          | pending => rw [alookup_ainsert_ne _ _ _ _ (fun hk => ht hk.symm)]; exact h
          | cancelled => exact h
          | done => exact h
      exact ih _ hmem' hstep

/-- Claim C9: ensure_exclusive registers the new flow as the member
current one and cancels (not merely discards) the pending wait tasks of
the superseded flow; on completion the registration is removed only when
it still refers to the completing flow, so a stale completion never
removes a newer registration. -/
theorem exclusive_guard_spec (st : GuardState) (ctx : FlowCtx) :
    alookup ctx.authorId (ensureExclusiveEnter st ctx).userLocks = some ctx ∧
    (∀ oldCtx t, alookup ctx.authorId st.userLocks = some oldCtx →
      t ∈ oldCtx.tasks → alookup t st.taskStatus = some TaskStatus.pending →
      alookup t (ensureExclusiveEnter st ctx).taskStatus = some TaskStatus.cancelled) ∧
    (∀ cur, alookup ctx.authorId st.userLocks = some cur → cur.msgId ≠ ctx.msgId →
      ensureExclusiveExit st ctx = st) ∧
    (∀ cur, alookup ctx.authorId st.userLocks = some cur → cur.msgId = ctx.msgId →
      alookup ctx.authorId (ensureExclusiveExit st ctx).userLocks = none) := by
  refine ⟨?_, ?_, ?_, ?_⟩
  · unfold ensureExclusiveEnter
    rcases h0 : alookup ctx.authorId st.userLocks with _ | old
    · exact alookup_ainsert _ _ _
    · exact alookup_ainsert _ _ _
  · intro oldCtx t hold hmem hpend
    unfold ensureExclusiveEnter
    rw [hold]
    exact cancelTasks_cancels oldCtx.tasks t st.taskStatus hmem hpend
  · intro cur hcur hne
    unfold ensureExclusiveExit
    rw [hcur]
    simp [hne]
  · intro cur hcur heq
    unfold ensureExclusiveExit
    rw [hcur]
    simp [heq, alookup_aerase_self]

theorem exclusive_guard_spec_witness :
    alookup 9 (ensureExclusiveEnter exGuard exNewCtx).userLocks = some exNewCtx ∧
    alookup 4 (ensureExclusiveEnter exGuard exNewCtx).taskStatus = some TaskStatus.cancelled ∧
    ensureExclusiveExit exGuard exNewCtx = exGuard ∧
    alookup 9 (ensureExclusiveExit exGuard exOldCtx).userLocks = none := by
  have h1 := exclusive_guard_spec exGuard exNewCtx
  have h2 := exclusive_guard_spec exGuard exOldCtx
  exact ⟨h1.1, h1.2.1 exOldCtx 4 (by decide) (by decide) (by decide),
    h1.2.2.1 exOldCtx (by decide) (by decide),
    h2.2.2.2 exOldCtx (by decide) (by decide)⟩

/-- Claim C8 counterexample: a scan tick with interval 1800 seconds at
hourly rate 6 and no live bonus credits nothing at all — 1800 s exceeds
the 20 minute (1200 s) sanity ceiling, so the tick is discarded (the
last-scan timestamp is still updated), contradicting the claimed example
of crediting 1800 s and 3 coins. -/
theorem scan_discards_1800s_interval :
    (scanGuild exScanGuild [(1, 0)] 1800).2 = [] ∧
    alookup 1 (scanGuild exScanGuild [(1, 0)] 1800).1 = some 1800 := by
  decide

/-- Claim C8 (amended): a tick with no prior last-scan timestamp, or with
an interval above the 20 minute ceiling, credits nobody but still updates
the last-scan timestamp; a tick within the ceiling credits every present,
eligible member exactly the interval of time and
(base hourly rate + live bonus when streaming or on camera) * interval/3600
coins, unflushed (e.g. interval 1200 s at hourly rate 6 with no bonus
credits 1200 s and 2 coins). -/
theorem scan_tick_spec (g : GuildScan) (ls : List (ℕ × ℤ)) (now : ℤ) :
    (alookup g.guildid ls = none → scanGuild g ls now = (ainsert g.guildid now ls, [])) ∧
    (∀ last, alookup g.guildid ls = some last → 60 * 20 < now - last →
      scanGuild g ls now = (ainsert g.guildid now ls, [])) ∧
    (∀ last ch m, alookup g.guildid ls = some last → now - last ≤ 60 * 20 →
      ch ∈ g.voiceChannels → ch.channelid ∉ g.untracked →
      m ∈ ch.members → m.isBot = false →
      m.userid ∉ g.blacklist → m.userid ∉ g.guildBlacklist →
      ({ userid := m.userid, time := now - last,
         coins := (g.hourlyReward + if m.selfStream || m.selfVideo then g.hourlyLiveBonus else 0)
           * ((now - last : ℤ) : ℚ) / 3600,
         flush := false } : Credit) ∈ (scanGuild g ls now).2) := by
  refine ⟨?_, ?_, ?_⟩
  · intro h
    simp [scanGuild, h]
  · intro last h hgt
    simp only [scanGuild, h]
    rw [if_pos hgt]
  · intro last ch m h hle htrch huntr hm hbot hbl hgbl
    have hnot : ¬ (60 * 20 < now - last) := not_lt.mpr hle
    simp only [scanGuild, h, hnot, if_false]
    refine List.mem_filterMap.mpr ⟨m, ?_, ?_⟩
    · refine List.mem_flatMap.mpr ⟨ch, ?_, hm⟩
      exact List.mem_filter.mpr ⟨htrch, by simpa using huntr⟩
    · simp [hbot, hbl, hgbl]

theorem scan_tick_spec_witness :
    ({ userid := 42, time := 1200,
       coins := ((6 : ℚ) + if false || false then 2 else 0) * ((1200 : ℤ) : ℚ) / 3600,
       flush := false } : Credit) ∈ (scanGuild exScanGuild [(1, 0)] 1200).2 := by
  have h := (scan_tick_spec exScanGuild [(1, 0)] 1200).2.2 0 exScanChannel exScanMember
    (by decide) (by decide) (by decide) (by decide) (by decide) (by decide) (by decide) (by decide)
  exact h

theorem cancelAGuildUpdate_effects (st : BookState) (u : ℕ) (sids : List ℕ)
    (tc : List JoinedRow) :
    (cancelAGuildUpdate st u sids tc).reservations = st.reservations ∧
    (cancelAGuildUpdate st u sids tc).coins = st.coins := by
  unfold cancelAGuildUpdate
  rcases h1 : tc.find? (slotMatches st sids) with _ | row <;> simp only [h1]
  · exact ⟨trivial, trivial⟩
  · rcases h2 : alookup row.guildid st.aguilds with _ | ag <;> simp only [h2]
    · exact ⟨trivial, trivial⟩
    · rcases h3 : ag.upcoming with _ | slot <;> simp only [h3]
      · exact ⟨trivial, trivial⟩
      · exact ⟨trivial, trivial⟩

/-- Claim C4: cancelling a selection that contains a slot already started
is rejected with SlotRunning and changes nothing; otherwise exactly the
member reservation rows of the selected slotids are deleted, the member
is refunded exactly the sum of the paid amounts read back from those
deleted rows, and every other reservation row survives. -/
theorem cancel_refund_exact (st : BookState) (u : ℕ) (toCancel : List JoinedRow)
    (now : ℤ) (hne : toCancel ≠ []) :
    ((∃ r ∈ toCancel, r.startAt < now) →
      cancelBranch st u toCancel now = (st, some BookError.slotRunning)) ∧
    ((∀ r ∈ toCancel, ¬ r.startAt < now) →
      (cancelBranch st u toCancel now).2 = none ∧
      (cancelBranch st u toCancel now).1.reservations
        = st.reservations.filter
            (fun r => !decide (r.userid = u ∧ r.slotid ∈ toCancel.map JoinedRow.slotid)) ∧
      (cancelBranch st u toCancel now).1.coins
        = st.coins + ((st.reservations.filter
            (fun r => decide (r.userid = u ∧ r.slotid ∈ toCancel.map JoinedRow.slotid))).map
              ResRow.paid).sum ∧
      (∀ r ∈ st.reservations,
        ¬(r.userid = u ∧ r.slotid ∈ toCancel.map JoinedRow.slotid) →
        r ∈ (cancelBranch st u toCancel now).1.reservations)) := by
  have hemp : toCancel.isEmpty = false := by
    cases toCancel with
    | nil => exact absurd rfl hne
    | cons a t => rfl
  constructor
  · rintro ⟨r, hr, hlt⟩
    have hany : toCancel.any (fun r => decide (r.startAt < now)) = true :=
      List.any_eq_true.mpr ⟨r, hr, by simpa using hlt⟩
    simp [cancelBranch, hemp, hany]
  · intro hall
    have hany : toCancel.any (fun r => decide (r.startAt < now)) = false := by
      rw [List.any_eq_false]
      intro r hr
      simpa using hall r hr
    obtain ⟨hres0, hcoins0⟩ := cancelAGuildUpdate_effects { st with reservations := st.reservations.filter (fun r => !decide (r.userid = u ∧ r.slotid ∈ toCancel.map JoinedRow.slotid)) } u (toCancel.map JoinedRow.slotid) toCancel
    have hres : (cancelBranch st u toCancel now).1.reservations
        = st.reservations.filter
            (fun r => !decide (r.userid = u ∧ r.slotid ∈ toCancel.map JoinedRow.slotid)) := by
      simp only [cancelBranch, hemp, Bool.false_eq_true, if_false, hany]
      exact hres0
    refine ⟨?_, hres, ?_, ?_⟩
    · simp [cancelBranch, hemp, hany]
    · simp only [cancelBranch, hemp, Bool.false_eq_true, if_false, hany]
      rw [hcoins0]
    · intro r hr hnotsel
      rw [hres]
      refine List.mem_filter.mpr ⟨hr, ?_⟩
      rw [decide_eq_false hnotsel]
      rfl

theorem cancel_refund_exact_witness :
    (cancelBranch exCancel 5 exToCancel 0).2 = none ∧
    (cancelBranch exCancel 5 exToCancel 0).1.coins = 25 ∧
    ({ slotid := 3, userid := 5, paid := 7 } : ResRow)
      ∈ (cancelBranch exCancel 5 exToCancel 0).1.reservations := by
  have h := cancel_refund_exact exCancel 5 exToCancel 0 (by decide)
  have h2 := h.2 (by decide)
  refine ⟨h2.1, ?_, ?_⟩
  · rw [h2.2.2.1]
    decide
  · exact h2.2.2.2 _ (by decide) (by decide)

theorem makeSlotRows_length (g s : ℕ) (ts : List ℤ) :
    (makeSlotRows g s ts).length = ts.length := by
  induction ts generalizing s with
  | nil => rfl
  | cons t ts ih => simp [makeSlotRows, ih]

theorem makeSlotRows_mem (g s : ℕ) (ts : List ℤ) (t : ℤ) (h : t ∈ ts) :
    ∃ r, r ∈ makeSlotRows g s ts ∧ r.guildid = g ∧ r.startAt = t := by
  induction ts generalizing s with
  | nil => cases h
  | cons a ts ih =>
    rcases List.mem_cons.mp h with h1 | h1
    · exact ⟨_, List.mem_cons_self _ _, rfl, h1.symm⟩
    · obtain ⟨r, hr, hg, ht⟩ := ih (s + 1) h1
      exact ⟨r, List.mem_cons_of_mem _ hr, hg, ht⟩

theorem bookActivation_effects (st : BookState) (g u : ℕ) (tb : List ℤ)
    (oc om : ℕ) :
    (bookActivation st g u tb oc om).reservations = st.reservations ∧
    (bookActivation st g u tb oc om).coins = st.coins ∧
    ∀ r ∈ st.rooms, ∃ r2, r2 ∈ (bookActivation st g u tb oc om).rooms ∧
      r2.guildid = r.guildid ∧ r2.startAt = r.startAt := by
  unfold bookActivation
  rcases h1 : alookup g st.aguilds with _ | ag <;> simp only [h1]
  · exact ⟨by trivial, by trivial, fun r hr => ⟨r, hr, rfl, rfl⟩⟩
  · rcases h2 : ag.upcoming with _ | slot <;> simp only [h2]
    · exact ⟨by trivial, by trivial, fun r hr => ⟨r, hr, rfl, rfl⟩⟩
    · by_cases h3 : slot.startTime ∈ tb
      · rw [if_pos h3]
        rcases h4 : slot.dataSlotid with _ | sid <;> simp only [h4]
        · rcases h5 : (st.rooms.filter
              (fun r => decide (r.guildid = g ∧ r.startAt = slot.startTime))).head?
            with _ | row <;> simp only [h5]
          · exact ⟨by trivial, by trivial, fun r hr => ⟨r, hr, rfl, rfl⟩⟩
          · refine ⟨by trivial, by trivial, ?_⟩
            intro r hr
            refine ⟨if r.slotid = row.slotid
                then { r with channelid := some oc, messageid := some om } else r,
              List.mem_map.mpr ⟨r, hr, rfl⟩, ?_, ?_⟩
            · by_cases h6 : r.slotid = row.slotid <;> simp [h6]
            · by_cases h6 : r.slotid = row.slotid <;> simp [h6]
        · exact ⟨by trivial, by trivial, fun r hr => ⟨r, hr, rfl, rfl⟩⟩
      · rw [if_neg h3]
        exact ⟨by trivial, by trivial, fun r hr => ⟨r, hr, rfl, rfl⟩⟩

theorem filter_mem_length (existing toBook : List ℤ)
    (hnd : toBook.Nodup) (hex : existing.Nodup)
    (hsub : ∀ t ∈ existing, t ∈ toBook) :
    (toBook.filter (fun t => decide (t ∈ existing))).length = existing.length := by
  have h1 : List.Subperm (toBook.filter (fun t => decide (t ∈ existing))) existing := by
    apply List.subperm_of_subset (hnd.filter _)
    intro t ht
    have hm := List.mem_filter.mp ht
    simpa using hm.2
  have h2 : List.Subperm existing (toBook.filter (fun t => decide (t ∈ existing))) := by
    apply List.subperm_of_subset hex
    intro t ht
    exact List.mem_filter.mpr ⟨hsub t ht, by simpa using ht⟩
  exact le_antisymm h1.length_le h2.length_le

theorem bookSlotRows_startAt_mem (st : BookState) (g : ℕ) (toBook : List ℤ)
    (t : ℤ) (h : t ∈ (bookSlotRows st g toBook).map SlotRow.startAt) :
    t ∈ toBook := by
  obtain ⟨r, hr, ht⟩ := List.mem_map.mp h
  have hp := List.mem_filter.mp hr
  have := of_decide_eq_true hp.2
  exact ht ▸ this.2

theorem bookSlotids_length (st : BookState) (g : ℕ) (toBook : List ℤ)
    (hnd : toBook.Nodup)
    (hex : ((bookSlotRows st g toBook).map SlotRow.startAt).Nodup) :
    (bookSlotids st g toBook).length = toBook.length := by
  have hdedup : toBook.dedup = toBook := List.dedup_eq_self.mpr hnd
  have hpart := List.length_eq_length_filter_add
    (l := toBook) (fun t => decide (t ∈ (bookSlotRows st g toBook).map SlotRow.startAt))
  have hmemlen := filter_mem_length ((bookSlotRows st g toBook).map SlotRow.startAt) toBook
    hnd hex (bookSlotRows_startAt_mem st g toBook)
  have hlen1 : (bookSlotRows st g toBook).length
      = ((bookSlotRows st g toBook).map SlotRow.startAt).length :=
    (List.length_map _ _).symm
  have hlen2 : (bookNewRows st g toBook).length = (bookToAdd st g toBook).length :=
    makeSlotRows_length _ _ _
  have htoAdd : (bookToAdd st g toBook).length
      = (toBook.filter
          (fun t => !decide (t ∈ (bookSlotRows st g toBook).map SlotRow.startAt))).length := by
    unfold bookToAdd
    rw [hdedup]
  simp only [bookSlotids, List.length_append, List.length_map]
  omega

/-- Claim C3: booking N distinct future hour slots fails with
InsufficientFunds and leaves the state untouched when the balance is below
N times the price (and any error leaves the state untouched, so no partial
charge ever happens); otherwise the backing slot rows are found or
created, exactly N reservation rows at the current price are inserted,
and the balance is debited exactly N times the price. -/
theorem booking_funds_and_rows (st : BookState) (g u : ℕ) (price : ℤ)
    (toBook : List ℤ) (now : ℤ) (oc om : ℕ)
    (hne : toBook ≠ [])
    (hfut : ∀ t ∈ toBook, now ≤ t)
    (hnd : toBook.Nodup)
    (hex : ((bookSlotRows st g toBook).map SlotRow.startAt).Nodup) :
    (∀ e, (bookBranch st g u price toBook now oc om).2 = some e →
      (bookBranch st g u price toBook now oc om).1 = st) ∧
    (st.coins < (toBook.length : ℤ) * price →
      bookBranch st g u price toBook now oc om = (st, some BookError.insufficientFunds)) ∧
    ((toBook.length : ℤ) * price ≤ st.coins →
      (bookBranch st g u price toBook now oc om).2 = none ∧
      ∃ sids : List ℕ, sids.length = toBook.length ∧
        (bookBranch st g u price toBook now oc om).1.reservations
          = st.reservations
            ++ sids.map (fun sid => ({ slotid := sid, userid := u, paid := price } : ResRow)) ∧
        (bookBranch st g u price toBook now oc om).1.coins
          = st.coins - (toBook.length : ℤ) * price ∧
        ∀ t ∈ toBook, ∃ r2, r2 ∈ (bookBranch st g u price toBook now oc om).1.rooms ∧
          r2.guildid = g ∧ r2.startAt = t) := by
  have hemp : toBook.isEmpty = false := by
    cases toBook with
    | nil => exact absurd rfl hne
    | cons a t => rfl
  have hany : toBook.any (fun t => decide (t < now)) = false := by
    rw [List.any_eq_false]
    intro t ht
    simpa using not_lt.mpr (hfut t ht)
  by_cases hc : st.coins < (toBook.length : ℤ) * price
  · have hred : bookBranch st g u price toBook now oc om
        = (st, some BookError.insufficientFunds) := by
      simp [bookBranch, hemp, hany, hc]
    refine ⟨?_, fun _ => hred, ?_⟩
    · intro e he
      rw [hred]
    · intro hle
      exact absurd hc (not_lt.mpr hle)
  · have hred : bookBranch st g u price toBook now oc om
        = ({ bookSuccess st g u price toBook oc om with
              coins := (bookSuccess st g u price toBook oc om).coins
                - (toBook.length : ℤ) * price }, none) := by
      simp [bookBranch, hemp, hany, hc]
    obtain ⟨hres0, hcoins0, hrooms0⟩ := bookActivation_effects
      { st with
          rooms := st.rooms ++ bookNewRows st g toBook,
          reservations := st.reservations
            ++ (bookSlotids st g toBook).map
                (fun sid => ({ slotid := sid, userid := u, paid := price } : ResRow)),
          nextSlotid := st.nextSlotid + (bookToAdd st g toBook).length }
      g u toBook oc om
    have hsr : (bookSuccess st g u price toBook oc om).reservations
        = st.reservations
          ++ (bookSlotids st g toBook).map
              (fun sid => ({ slotid := sid, userid := u, paid := price } : ResRow)) := by
      unfold bookSuccess
      rw [hres0]
    have hsc : (bookSuccess st g u price toBook oc om).coins = st.coins := by
      unfold bookSuccess
      rw [hcoins0]
    have hsrooms : ∀ t ∈ toBook, ∃ r2,
        r2 ∈ (bookSuccess st g u price toBook oc om).rooms ∧
        r2.guildid = g ∧ r2.startAt = t := by
      intro t ht
      unfold bookSuccess
      by_cases hmem : t ∈ (bookSlotRows st g toBook).map SlotRow.startAt
      · obtain ⟨r, hr, hts⟩ := List.mem_map.mp hmem
        unfold bookSlotRows at hr
        have hp := List.mem_filter.mp hr
        have hpr := of_decide_eq_true hp.2
        obtain ⟨r2, hr2, hg2, ht2⟩ := hrooms0 r
          (List.mem_append_left (bookNewRows st g toBook) hp.1)
        exact ⟨r2, hr2, hg2.trans hpr.1, ht2.trans hts⟩
      · have htadd : t ∈ bookToAdd st g toBook := by
          unfold bookToAdd
          rw [List.dedup_eq_self.mpr hnd]
          refine List.mem_filter.mpr ⟨ht, ?_⟩
          rw [decide_eq_false hmem]
          rfl
        obtain ⟨r, hr, hg, hts⟩ :=
          makeSlotRows_mem g st.nextSlotid (bookToAdd st g toBook) t htadd
        obtain ⟨r2, hr2, hg2, ht2⟩ := hrooms0 r
          (List.mem_append_right st.rooms hr)
        exact ⟨r2, hr2, hg2.trans hg, ht2.trans hts⟩
    refine ⟨?_, fun h => absurd h hc, ?_⟩
    · intro e he
      rw [hred] at he
      simp at he
    · intro _
      rw [hred]
      refine ⟨rfl, bookSlotids st g toBook,
        bookSlotids_length st g toBook hnd hex, hsr, ?_, ?_⟩
      · show (bookSuccess st g u price toBook oc om).coins
            - (toBook.length : ℤ) * price = st.coins - (toBook.length : ℤ) * price
        rw [hsc]
      · intro t ht
        obtain ⟨r2, h1, h2, h3⟩ := hsrooms t ht
        exact ⟨r2, h1, h2, h3⟩

theorem booking_funds_and_rows_witness :
    (bookBranch exBook 1 5 10 [3600, 7200] 0 100 200).2 = none ∧
    (bookBranch exBook 1 5 10 [3600, 7200] 0 100 200).1.coins = 0 ∧
    (bookBranch { exBook with coins := 15 } 1 5 10 [3600, 7200] 0 100 200)
      = ({ exBook with coins := 15 }, some BookError.insufficientFunds) := by
  have h := booking_funds_and_rows exBook 1 5 10 [3600, 7200] 0 100 200
    (by decide) (by decide) (by decide) (by decide)
  obtain ⟨hnone, sids, hlen, hres, hcoins, hrooms⟩ := h.2.2 (by decide)
  have h3 := booking_funds_and_rows { exBook with coins := 15 } 1 5 10 [3600, 7200] 0 100 200
    (by decide) (by decide) (by decide) (by decide)
  refine ⟨hnone, ?_, h3.2.1 (by decide)⟩
  rw [hcoins]
  decide

theorem streakRunFuel_succ (history : List HistRow) (n : ℕ) (s : StreakState)
    (row : HistRow) (hrow : history.get? s.i = some row) :
    streakRunFuel history (n + 1) s = streakRunFuel history n (streakBody row s) := by
  simp only [streakRunFuel]
  rw [hrow]

theorem curStart_eq (history : List HistRow) (i : ℕ) (row : HistRow)
    (hrow : history.get? i = some row) : curStart history i = row.startAt := by
  simp only [curStart]
  rw [hrow]

theorem streakBody_progress (row : HistRow) (s : StreakState) :
    (streakBody row s).i = s.i + 1 ∨
    ((streakBody row s).i = s.i ∧ (streakBody row s).date = s.date - daydiff ∧
      row.attended = true ∧ row.startAt ≤ s.date) := by
  unfold streakBody streakReset
  by_cases h1 : row.attended = false
  · simp [h1]
  · have h1t : row.attended = true := by
      revert h1
      cases row.attended <;> simp
    by_cases h2 : s.date < row.startAt
    · simp [h1, h2]
    · have h2le : row.startAt ≤ s.date := not_lt.mp h2
      rcases hda : s.dayAttended with _ | b
      · simp [h1, h2, hda, h1t, h2le]
      · cases b <;> simp [h1, h2, hda, h1t, h2le]

theorem streakBody_date_le (row : HistRow) (s : StreakState) :
    (streakBody row s).date = s.date ∨ (streakBody row s).date = s.date - daydiff := by
  unfold streakBody streakReset
  by_cases h1 : row.attended = false
  · simp [h1]
  · by_cases h2 : s.date < row.startAt
    · simp [h1, h2]
    · rcases hda : s.dayAttended with _ | b
      · simp [h1, h2, hda]
      · cases b <;> simp [h1, h2, hda]

/-- Claim C10: the backwards day-bucketed streak loop terminates on every
history list and every initial state: each iteration either advances the
history index or strictly decreases the day cursor, and some finite fuel
always suffices for the loop to exit (after which the final tally is a
total function, so the current and maximum streaks are defined). -/
theorem streak_loop_terminates (history : List HistRow) (s0 : StreakState) :
    (∀ row, (streakBody row s0).i = s0.i + 1 ∨ (streakBody row s0).date < s0.date) ∧
    ∃ n, (streakRunFuel history n s0).isSome = true := by
  constructor
  · intro row
    rcases streakBody_progress row s0 with h | ⟨_, h2, _, _⟩
    · exact Or.inl h
    · right
      rw [h2]
      unfold daydiff
      omega
  · suffices key : ∀ a b s, history.length - s.i ≤ a →
        ((s.date - curStart history s.i + daydiff).toNat ≤ b) →
        ∃ n, (streakRunFuel history n s).isSome = true by
      exact key (history.length - s0.i)
        ((s0.date - curStart history s0.i + daydiff).toNat) s0 le_rfl le_rfl
    intro a
    induction a with
    | zero =>
      intro b s ha _
      refine ⟨0, ?_⟩
      have hi : ¬ s.i < history.length := by omega
      simp [streakRunFuel, hi]
    | succ a iha =>
      intro b
      induction b with
      | zero =>
        intro s ha hb
        by_cases hi : s.i < history.length
        · obtain ⟨row, hrow⟩ : ∃ row, history.get? s.i = some row :=
            ⟨history.get ⟨s.i, hi⟩, List.get?_eq_get hi⟩
          rcases streakBody_progress row s with h1 | ⟨h1, h2, h3, h4⟩
          · obtain ⟨n, hn⟩ := iha
              ((streakBody row s).date - curStart history (streakBody row s).i + daydiff).toNat
              (streakBody row s) (by omega) le_rfl
            exact ⟨n + 1, by rw [streakRunFuel_succ history n s row hrow]; exact hn⟩
          · exfalso
            have hcur : curStart history s.i = row.startAt :=
              curStart_eq history s.i row hrow
            rw [hcur] at hb
            unfold daydiff at hb
            omega
        · exact ⟨0, by simp [streakRunFuel, hi]⟩
      | succ b ihb =>
        intro s ha hb
        by_cases hi : s.i < history.length
        · obtain ⟨row, hrow⟩ : ∃ row, history.get? s.i = some row :=
            ⟨history.get ⟨s.i, hi⟩, List.get?_eq_get hi⟩
          rcases streakBody_progress row s with h1 | ⟨h1, h2, h3, h4⟩
          · obtain ⟨n, hn⟩ := iha
              ((streakBody row s).date - curStart history (streakBody row s).i + daydiff).toNat
              (streakBody row s) (by omega) le_rfl
            exact ⟨n + 1, by rw [streakRunFuel_succ history n s row hrow]; exact hn⟩
          · have hcur : curStart history s.i = row.startAt :=
              curStart_eq history s.i row hrow
            have hx : ((streakBody row s).date - curStart history (streakBody row s).i
                + daydiff).toNat ≤ b := by
              rw [h1, h2, hcur]
              rw [hcur] at hb
              unfold daydiff at hb ⊢
              omega
            obtain ⟨n, hn⟩ := ihb (streakBody row s) (by omega) hx
            exact ⟨n + 1, by rw [streakRunFuel_succ history n s row hrow]; exact hn⟩
        · exact ⟨0, by simp [streakRunFuel, hi]⟩
